import Mathlib

/-!
Verification development for the SpreadWatch repository.

Shallow embedding conventions:
* Python floats are modelled as `ℚ` (exact arithmetic); `None` and float NaN are
  modelled as `Option.none`.
* Unix timestamps in seconds (`int(time.time())`) are modelled as `ℤ`;
  millisecond timestamps as `ℤ`.
* Python truthiness of optional floats (`if ask and var_buy:`) is modelled by
  `pyTruthy` (both `None` and `0.0` are falsy).
* `collections.deque` with a `maxlen` is modelled as a `List` together with the
  capacity-respecting append `pushCap`.
-/

attribute [local semireducible] Rat.add Rat.mul Rat.sub Rat.inv Rat.ofScientific

namespace SpreadWatch

/-- Truthiness of an optional rational, as Python evaluates a float-or-None value
in a boolean context: `None` and `0.0` are falsy, every other float is truthy. -/
def pyTruthy : Option ℚ → Bool
  | none => false
  | some x => decide (x ≠ 0)

/-- Truthiness of an optional integer (Python: `None` and `0` are falsy). -/
def pyTruthyInt : Option ℤ → Bool
  | none => false
  | some x => decide (x ≠ 0)

/-- Python `a or b` on two optional floats: returns `a` when `a` is truthy
(present and nonzero), otherwise `b`. -/
def pyOr (a b : Option ℚ) : Option ℚ :=
  match a with
  | some x => if x = 0 then b else some x
  | none => b

/-- Python `math.floor` on an exact rational, as an integer
(`x.num / x.den` with integer floor division). -/
def pyFloor (x : ℚ) : ℤ := x.num / (x.den : ℤ)

/-- Python `math.ceil` on an exact rational, as an integer. -/
def pyCeil (x : ℚ) : ℤ := -((-x).num / ((-x).den : ℤ))

/-- Python `round` (banker's rounding: ties go to the nearest even integer),
used by `_notional_key` in `src/app/main.py`. -/
def pyRound (x : ℚ) : ℤ :=
  let f := pyFloor x
  let r := x - (f : ℚ)
  if r < 1/2 then f
  else if 1/2 < r then f + 1
  else if Even f then f else f + 1

/-- Shallow embedding of `_quantile` from `src/app/utils/stats.py`.
`float("nan")` (returned for an empty list) is modelled as `none`; every other
path returns `some`.  For `q ∈ [0, 1]` the computed indices are nonnegative and
in range, matching Python's nonnegative list indexing. -/
def _quantile (sorted_vals : List ℚ) (q : ℚ) : Option ℚ :=
  if sorted_vals.length = 0 then none
  else if sorted_vals.length = 1 then some (sorted_vals.headD 0)
  else
    let pos : ℚ := ((sorted_vals.length : ℚ) - 1) * q
    let lo : ℤ := pyFloor pos
    let hi : ℤ := pyCeil pos
    if lo = hi then some (sorted_vals.getD lo.toNat 0)
    else
      let w : ℚ := pos - (lo : ℚ)
      some (sorted_vals.getD lo.toNat 0 * (1 - w) + sorted_vals.getD hi.toNat 0 * w)

/-- Shallow embedding of `median_iqr` from `src/app/utils/stats.py`.
The input models a list of float-or-None values; `none` stands for both `None`
and NaN entries, which the first line of the source filters out.  Python's
`sorted` (ascending, stable) is modelled by `List.insertionSort (· ≤ ·)`. -/
def median_iqr (vals : List (Option ℚ)) : Option ℚ × Option ℚ :=
  let vs := vals.filterMap id
  if vs.length < 20 then (none, none)
  else
    let s := vs.insertionSort (· ≤ ·)
    let med := _quantile s (1/2)
    let q25 := _quantile s (1/4)
    let q75 := _quantile s (3/4)
    (med, match q75, q25 with
          | some a, some b => some (a - b)
          | _, _ => none)

/-! Data model, from `src/app/state.py`. -/

/-- Embedding of `BookTop` from `src/app/state.py`. -/
structure BookTop where
  best_ask : Option ℚ := none
  best_bid : Option ℚ := none
deriving DecidableEq

/-- Embedding of `MarketStats` from `src/app/state.py`. -/
structure MarketStats where
  daily_quote_volume : Option ℚ := none
  mark_price : Option ℚ := none
deriving DecidableEq

/-- Embedding of `VarQuote` from `src/app/state.py`. -/
structure VarQuote where
  buy_1500 : Option ℚ := none
  ts_ms : ℤ := 0
deriving DecidableEq

/-- Embedding of `ConfirmInfo` from `src/app/state.py`. -/
structure ConfirmInfo where
  notional : ℚ
  var_buy : Option ℚ := none
  lighter_vwap_ask : Option ℚ := none
  spread_bps_exec : Option ℚ := none
  spread_usd_exec : Option ℚ := none
  ts_ms : ℤ := 0
deriving DecidableEq

/-- Embedding of `Computed` from `src/app/state.py`. -/
structure Computed where
  spread_usd : Option ℚ := none
  spread_bps : Option ℚ := none
  baseline_median_bps : Option ℚ := none
  baseline_iqr_bps : Option ℚ := none
  deviation_bps : Option ℚ := none
  anomaly : Bool := false
  anomaly_started_s : Option ℤ := none
  last_confirm_s : Option ℤ := none
  confirm : Option ConfirmInfo := none
deriving DecidableEq

/-- Embedding of `Market` from `src/app/state.py`.  `spread_bps_hist` models the
`deque(maxlen=7200)` of `(timestampSec, spreadBps)` pairs as a list, oldest
first; the `maxlen` bound is enforced by `pushCap` at each append. -/
structure Market where
  market_id : ℤ
  symbol : String
  base : String
  book : BookTop := {}
  stats : MarketStats := {}
  var : VarQuote := {}
  computed : Computed := {}
  spread_bps_hist : List (ℤ × ℚ) := []
deriving DecidableEq

/-! Settings defaults, from `src/app/config.py`. -/

def BASELINE_WINDOW_SEC : ℤ := 1800
def PERSIST_SEC : ℤ := 6
def MIN_DELTA_BPS : ℚ := 8
def VAR_CONFIRM_COOLDOWN_SEC : ℤ := 30
def CONFIRM_NOTIONAL_USD : ℚ := 3000

/-! The spread engine, from `src/app/engine/spread_engine.py`. -/

/-- Embedding of `_calc_bps` from `src/app/engine/spread_engine.py`:
`None` when the reference price is falsy or nonpositive (`not ref_price or
ref_price <= 0` collapses to `ref_price ≤ 0` on floats). -/
def _calc_bps (spread_usd ref_price : ℚ) : Option ℚ :=
  if ref_price ≤ 0 then none
  else some (spread_usd / ref_price * 10000)

/-- Embedding of `_trim_hist` from `src/app/engine/spread_engine.py`: pop
entries from the left while the head is strictly older than the window. -/
def _trim_hist (now window_sec : ℤ) (hist : List (ℤ × ℚ)) : List (ℤ × ℚ) :=
  hist.dropWhile (fun e => decide (window_sec < now - e.1))

/-- Appending to a `collections.deque` with `maxlen = cap`: the appended list is
truncated from the left to the most recent `cap` elements. -/
def pushCap (cap : ℕ) (buf : List α) (x : α) : List α :=
  let b := buf ++ [x]
  b.drop (b.length - cap)

/-- The anomaly-debounce update from `src/app/engine/spread_engine.py`
lines 48-55, acting on the `(anomaly, anomaly_started_s)` pair of one market on
a tick at time `now` where the deviation condition evaluated to `cond`. -/
def anomalyUpdate (persist now : ℤ) (cond : Bool) (s : Bool × Option ℤ) :
    Bool × Option ℤ :=
  if cond then
    let started := s.2.getD now
    (if persist ≤ now - started then true else s.1, some started)
  else (false, none)

/-- Lines 37-55 of `src/app/engine/spread_engine.py`: write the recomputed
baseline `(median, iqr)` into `computed` and, when the baseline is defined,
evaluate the deviation condition and run the anomaly debounce. `h` is the
already appended-and-trimmed history, `mi` the `median_iqr` result over its
values. -/
def engineAnomalyPart (persist : ℤ) (min_delta : ℚ) (now : ℤ) (bps : ℚ)
    (h : List (ℤ × ℚ)) (mi : Option ℚ × Option ℚ) (m : Market) : Market :=
  let c2 := { m.computed with baseline_median_bps := mi.1,
                              baseline_iqr_bps := mi.2 }
  match mi.1, mi.2 with
  | some med, some iqr =>
    let dev := bps - med
    let delta := max min_delta (2 * iqr)
    let cond := decide (delta ≤ |dev|)
    let s := anomalyUpdate persist now cond (c2.anomaly, c2.anomaly_started_s)
    { m with spread_bps_hist := h,
             computed := { c2 with deviation_bps := some dev,
                                   anomaly := s.1,
                                   anomaly_started_s := s.2 } }
  | _, _ => { m with spread_bps_hist := h, computed := c2 }

/-- The history/baseline/anomaly part of the `spread_engine_loop` body
(`src/app/engine/spread_engine.py` lines 33-55), reached once `spread_bps` is
known to be defined (`bps`).  The market `m` passed here already carries the
freshly written `spread_usd`/`spread_bps` of lines 30-31 in `m.computed`. -/
def engineBaselineStep (persist window : ℤ) (min_delta : ℚ) (now : ℤ)
    (bps : ℚ) (m : Market) : Market :=
  let h := _trim_hist now window (pushCap 7200 m.spread_bps_hist (now, bps))
  let mi := median_iqr (h.map (fun e => some e.2))
  engineAnomalyPart persist min_delta now bps h mi m

/-- Lines 30-31 of `src/app/engine/spread_engine.py`: store the freshly
computed spread into `computed`. -/
def withSpread (m : Market) (spread_usd : ℚ) (spread_bps : Option ℚ) : Market :=
  { m with computed := { m.computed with
      spread_usd := some spread_usd
      spread_bps := spread_bps } }

/-- One pass of the `spread_engine_loop` body over a single market at time
`now` (`src/app/engine/spread_engine.py` lines 24-55), with the settings
`persist = PERSIST_SEC`, `window = BASELINE_WINDOW_SEC` and
`min_delta = MIN_DELTA_BPS` passed explicitly.  Lines 30-31 are factored into
`withSpread` and lines 33-55 into `engineBaselineStep`. -/
def engineTick (persist window : ℤ) (min_delta : ℚ) (now : ℤ) (m : Market) :
    Market :=
  if pyTruthy m.book.best_ask && pyTruthy m.var.buy_1500 then
    let ask := m.book.best_ask.getD 0
    let var_buy := m.var.buy_1500.getD 0
    let spread_usd := var_buy - ask
    let spread_bps := _calc_bps spread_usd ask
    let m1 := withSpread m spread_usd spread_bps
    match spread_bps with
    | none => m1
    | some bps => engineBaselineStep persist window min_delta now bps m1
  else m

/-- Folding the anomaly-debounce update over a list of engine ticks, each given
as `(timestampSec, condition)`, starting from the clean state
`(anomaly = false, anomaly_started_s = None)`. -/
def runAnomaly (persist : ℤ) (ticks : List (ℤ × Bool)) : Bool × Option ℤ :=
  ticks.foldl (fun s tc => anomalyUpdate persist tc.1 tc.2 s) (false, none)

/-- The maximal suffix of consecutive condition-true ticks of a tick list. -/
def condStreak (ticks : List (ℤ × Bool)) : List (ℤ × Bool) :=
  (ticks.reverse.takeWhile (fun tc => tc.2)).reverse

/-- The timestamp of the first tick of the current unbroken condition-true run,
if any: this is the value the claim says `anomalyStartedAt` holds. -/
def streakStart (ticks : List (ℤ × Bool)) : Option ℤ :=
  (condStreak ticks).head?.map Prod.fst

/-- One pass of the `confirm_executor_loop` body over a single market's
`Computed` record (`src/app/engine/spread_engine.py` lines 61-81).  The two
awaited quotes are passed as `var_buy` and `vwap`; `none` models both an
explicit `None` result and a raised exception (the `except` clause skips the
asset either way, leaving the record untouched).  The second component reports
whether the quote calls were issued at all.  Note the skip guard
`m.computed.last_confirm_s and now_s - last < cooldown` uses Python truthiness:
a stored timestamp of `0` would not gate (it never occurs at runtime, since
`last_confirm_s` is only ever set to a positive wall-clock second count). -/
def confirmStep (cooldown : ℤ) (notional : ℚ) (now now_ms : ℤ)
    (var_buy vwap : Option ℚ) (c : Computed) : Computed × Bool :=
  if c.anomaly = false then (c, false)
  else if pyTruthyInt c.last_confirm_s &&
          decide (now - c.last_confirm_s.getD 0 < cooldown) then (c, false)
  else
    match var_buy, vwap with
    | some vb, some vw =>
      let spread_usd := vb - vw
      let spread_bps := _calc_bps spread_usd vw
      let info : ConfirmInfo :=
        { notional := notional, var_buy := some vb, lighter_vwap_ask := some vw,
          spread_bps_exec := spread_bps, spread_usd_exec := some spread_usd,
          ts_ms := now_ms }
      ({ c with confirm := some info, last_confirm_s := some now }, true)
    | _, _ => (c, true)

/-! The primary feed ingestor, from `src/app/feeds/lighter_ws.py`. -/

/-- A value held in an inbound payload dict: either a number (modelled exactly)
or a non-numeric value carrying only its Python truthiness.  A dict is a
function from field names to `Option PyVal`, where `none` covers both an absent
key and an explicit `None` value (the source treats the two alike:
`k in d and d[k] is not None`). -/
inductive PyVal where
  | num (q : ℚ)
  | other (truthy : Bool)
deriving DecidableEq

/-- Embedding of `_to_float`: numeric values convert, everything else is
`None`. -/
def _to_float : PyVal → Option ℚ
  | .num q => some q
  | .other _ => none

/-- Python truthiness of a payload value. -/
def pyValTruthy : PyVal → Bool
  | .num q => decide (q ≠ 0)
  | .other t => t

/-- Python `d.get(k1) or d.get(k2)` over payload values. -/
def pyOrVal (a b : Option PyVal) : Option PyVal :=
  match a with
  | some v => if pyValTruthy v then some v else b
  | none => b

/-- The ordered candidate field names for the best bid, from
`_pick_best_bid_ask` in `src/app/feeds/lighter_ws.py`. -/
def bid_keys : List String := ["best_bid", "bid", "bid_price", "bestBid", "bestBidPrice"]

/-- The ordered candidate field names for the best ask. -/
def ask_keys : List String := ["best_ask", "ask", "ask_price", "bestAsk", "bestAskPrice"]

/-- The `for k in keys: if k in d and d[k] is not None: x = _to_float(d[k]); break`
loop: the first present key wins (even when its value fails float conversion,
in which case the result is `None` and later keys are not tried). -/
def pickFirst (d : String → Option PyVal) : List String → Option ℚ
  | [] => none
  | k :: ks =>
    match d k with
    | some v => _to_float v
    | none => pickFirst d ks

/-- Embedding of `_pick_best_bid_ask` from `src/app/feeds/lighter_ws.py`.
When bid or ask is missing after the keyed lookups, the missing side falls back
to `_to_float(d.get("mark_price") or d.get("markPrice"))`. -/
def _pick_best_bid_ask (d : String → Option PyVal) : Option ℚ × Option ℚ :=
  let bid := pickFirst d bid_keys
  let ask := pickFirst d ask_keys
  if bid = none ∨ ask = none then
    let mp := (pyOrVal (d ("mark_price")) (d ("markPrice"))).bind _to_float
    (bid.or mp, ask.or mp)
  else (bid, ask)

/-- The reconnect backoff state machine of `lighter_ws_loop`
(`src/app/feeds/lighter_ws.py` lines 176-204).  One loop iteration is driven by
one event: `true` means the connect succeeded (the source then resets
`backoff = 1.0`; the connection later drops and the `except` clause runs),
`false` means the connect itself failed.  Either way the `except` clause sleeps
the current backoff and multiplies it by 1.6, clamped at 15.0.  Returns
`(new backoff, emitted sleep duration)`. -/
def feedIter (backoff : ℚ) (connect_ok : Bool) : ℚ × ℚ :=
  let b := if connect_ok then 1 else backoff
  (min (b * (16/10)) 15, b)

/-- Running the reconnect loop from the initial `backoff = 1.0` over a list of
connect outcomes, collecting the slept durations in order. -/
def feedRunFrom (backoff : ℚ) : List Bool → ℚ × List ℚ
  | [] => (backoff, [])
  | ev :: evs =>
    let (b, slept) := feedIter backoff ev
    let (bfin, sleeps) := feedRunFrom b evs
    (bfin, slept :: sleeps)

/-- The reconnect loop started at the source's initial `backoff = 1.0`. -/
def feedRun (evs : List Bool) : ℚ × List ℚ := feedRunFrom 1 evs

/-- The backoff recurrence named by the claim: `1.0` to start, multiply by 1.6
and clamp at 15.0 for each further consecutive failure. -/
def backoffSeq : ℕ → ℚ
  | 0 => 1
  | n + 1 => min (backoffSeq n * (16/10)) 15

/-! The HTTP backend, from `src/app/main.py`. -/

/-- Embedding of `_notional_key` from `src/app/main.py`: round the notional to
the nearest integer (Python `round`, ties to even) to form a stable lookup
key; an unparseable notional maps to `0`. -/
def _notional_key (notional : Option ℚ) : ℤ :=
  match notional with
  | none => 0
  | some f => pyRound f

/-- Python `str.upper` (ASCII view, as used on ticker strings). -/
def pyUpper (s : String) : String := ⟨s.data.map Char.toUpper⟩

/-- Python `str.strip`: drop leading and trailing whitespace. -/
def pyStrip (s : String) : String :=
  ⟨((s.data.dropWhile Char.isWhitespace).reverse.dropWhile Char.isWhitespace).reverse⟩

/-- One inbound record of the `/ingest/var_batch` payload
(`{base, notional_usd, bid, ask, mid?, qty_used?}`), with numeric fields
already passed through `_to_f` (so `none` covers absent, `None`, and
unparseable values). -/
structure RawQuote where
  base : String
  notional_usd : Option ℚ := none
  notional : Option ℚ := none
  bid : Option ℚ := none
  ask : Option ℚ := none
  mid : Option ℚ := none
  qty_used : Option ℚ := none
deriving DecidableEq

/-- A stored VAR_BATCH entry (the dict built at `src/app/main.py` line 419). -/
structure StoredQuote where
  ts_ms : ℤ
  base : String
  notional_int : ℤ
  bid : ℚ
  ask : ℚ
  mid : Option ℚ := none
  qty_used : Option ℚ := none
deriving DecidableEq

/-- The result of `_get_lighter_price(base)`: best bid/ask/mark from the
primary venue, all optional. -/
structure LighterPrice where
  bid : Option ℚ := none
  ask : Option ℚ := none
  mark : Option ℚ := none
deriving DecidableEq

/-- The mutable state touched by `ingest_var_batch`: the `VAR_BATCH` map keyed
by `(base, notional_int)`, the `ACTIVE_BASES` set, and the `stored` counter. -/
structure IngestState where
  varBatch : String × ℤ → Option StoredQuote
  activeBases : String → Bool
  stored : ℕ

/-- The empty ingest state. -/
def IngestState.init : IngestState :=
  { varBatch := fun _ => none, activeBases := fun _ => false, stored := 0 }

/-- Processing of a single record in the `for q in quotes:` loop of
`ingest_var_batch` (`src/app/main.py` lines 391-429).  `lp` models
`_get_lighter_price`, `now_ms` models `_now_ms()`.  The chart-point push at
lines 431-434 touches only `SPREAD_SERIES` (modelled separately by `pushCap` /
`queryPoints`) and is omitted here. -/
def ingestOne (lp : String → LighterPrice) (now_ms : ℤ) (st : IngestState)
    (q : RawQuote) : IngestState :=
  let base := pyStrip (pyUpper q.base)
  if base = "" then st
  else
    let notional_int := _notional_key (some ((pyOr q.notional_usd q.notional).getD 0))
    let ba : Option ℚ × Option ℚ :=
      match q.bid, q.ask with
      | some b, some a => if a < b then (some a, some b) else (some b, some a)
      | b, a => (b, a)
    match ba.1, ba.2 with
    | some bid, some ask =>
      let l := lp base
      let ref := pyOr (pyOr l.mark l.bid) l.ask
      let drop : Bool :=
        match ref with
        | some r => decide (r ≠ 0) && decide (5/100 < |(ask + bid) / 2 - r| / r)
        | none => false
      if drop then
        { st with activeBases := fun b => if b = base then true else st.activeBases b }
      else
        { varBatch := fun k => if k = (base, notional_int) then
                        some { ts_ms := now_ms, base := base,
                               notional_int := notional_int, bid := bid,
                               ask := ask, mid := q.mid, qty_used := q.qty_used }
                      else st.varBatch k,
          activeBases := fun b => if b = base then true else st.activeBases b,
          stored := st.stored + 1 }
    | _, _ => st

/-- Embedding of the `ingest_var_batch` handler body over the whole quote
list. -/
def ingest_var_batch (lp : String → LighterPrice) (now_ms : ℤ)
    (quotes : List RawQuote) (st : IngestState) : IngestState :=
  quotes.foldl (ingestOne lp now_ms) st

/-- Embedding of `_push_point` acting on one `(base, mode)` series buffer
(`src/app/main.py` lines 265-278): skip when either metric is `None`,
otherwise append to the capacity-bounded deque. -/
def _push_point (cap : ℕ) (buf : List (ℤ × ℚ × ℚ)) (now_ms : ℤ)
    (spread_usd spread_bps : Option ℚ) : List (ℤ × ℚ × ℚ) :=
  match spread_usd, spread_bps with
  | some u, some b => pushCap cap buf (now_ms, u, b)
  | _, _ => buf

/-- The point-selection loop of `chart_series` (`src/app/main.py` lines
493-498): keep samples with `t_ms ≥ cutoff` in insertion order, projecting the
chosen metric (`bps` when `use_bps`, else `usd`). -/
def queryPoints (dq : List (ℤ × ℚ × ℚ)) (cutoff_ms : ℤ) (use_bps : Bool) :
    List (ℤ × ℚ) :=
  dq.filterMap (fun e =>
    if e.1 < cutoff_ms then none
    else some (e.1, if use_bps then e.2.2 else e.2.1))

/-- The field-resolution order the claim describes, written from the claim's
words: the first present candidate key wins and its value is float-converted. -/
def pickSpec (d : String → Option PyVal) (keys : List String) : Option ℚ :=
  match keys.find? (fun k => (d k).isSome) with
  | some k => (d k).bind _to_float
  | none => none

/-- A payload dict carrying only an index price (no bid/ask/mark fields). -/
def dIdx : String → Option PyVal :=
  fun k => if k = ("index_price") then some (.num 100) else none

/-- A payload dict carrying only a mark price. -/
def dMark : String → Option PyVal :=
  fun k => if k = ("mark_price") then some (.num 50) else none

/-- A market whose primary-venue ask is unknown but which still carries a stale
history sample and live computed fields. -/
def mC2 : Market :=
  { market_id := 0, symbol := ("X"), base := ("X"),
    spread_bps_hist := [(0, 1)] }

/-- A market with a computable spread, a previously stored `spread_usd`, and an
active anomaly, but an empty history (so the baseline is undefined). -/
def mC10 : Market :=
  { market_id := 0, symbol := ("X"), base := ("X"),
    book := { best_ask := some 100 },
    var := { buy_1500 := some 101 },
    computed := { spread_usd := some 999, anomaly := true,
                  anomaly_started_s := some 1 } }

/-- The effect of a baseline-undefined tick on a market: the history is
replaced by `h` and the baseline fields are overwritten with `None`, while
everything else in `computed` is untouched. -/
def withBaselineCleared (m : Market) (h : List (ℤ × ℚ)) : Market :=
  { m with spread_bps_hist := h
           computed := { m.computed with
             baseline_median_bps := none
             baseline_iqr_bps := none } }

/-! Theorems. -/

lemma pushCap_of_lt {α : Type} (cap : ℕ) (buf : List α) (x : α)
    (h : buf.length < cap) : pushCap cap buf x = buf ++ [x] := by
  have h0 : buf.length + 1 - cap = 0 := by omega
  simp [pushCap, h0]

lemma median_iqr_short (vals : List (Option ℚ))
    (h : (vals.filterMap id).length < 20) : median_iqr vals = (none, none) := by
  simp [median_iqr, if_pos h]

lemma length_filterMap_some_snd (l : List (ℤ × ℚ)) :
    ((l.map (fun e => some e.2)).filterMap id).length = l.length := by
  induction l with
  | nil => rfl
  | cons e t ih => simp [ih]

lemma engineAnomalyPart_hist (p : ℤ) (d : ℚ) (now : ℤ) (bps : ℚ)
    (h : List (ℤ × ℚ)) (mi : Option ℚ × Option ℚ) (m : Market) :
    (engineAnomalyPart p d now bps h mi m).spread_bps_hist = h := by
  rcases mi with ⟨m1, m2⟩
  cases m1 <;> cases m2 <;> rfl

lemma engineBaselineStep_hist (p w : ℤ) (d : ℚ) (now : ℤ) (bps : ℚ) (m : Market) :
    (engineBaselineStep p w d now bps m).spread_bps_hist
      = _trim_hist now w (pushCap 7200 m.spread_bps_hist (now, bps)) := by
  simp only [engineBaselineStep]
  exact engineAnomalyPart_hist p d now bps _ _ m

lemma feedRunFrom_backoff_false (n : ℕ) : ∀ k : ℕ,
    (feedRunFrom (backoffSeq k) (List.replicate n false)).2
      = (List.range n).map (fun i => backoffSeq (k + i)) := by
  induction n with
  | zero => intro k; simp [feedRunFrom]
  | succ n ih =>
    intro k
    have hstep : feedIter (backoffSeq k) false = (backoffSeq (k + 1), backoffSeq k) := rfl
    have hmap : (List.range n).map (fun i => backoffSeq (k + 1 + i))
        = (List.range n).map (fun i => backoffSeq (k + (i + 1))) := by
      apply List.map_congr_left
      intro i _
      congr 1
      omega
    simp only [List.replicate_succ, feedRunFrom, hstep, ih (k + 1), hmap,
      List.range_succ_eq_map, List.map_cons, List.map_map, Function.comp_def,
      Nat.add_zero]

lemma feedRunFrom_append (xs ys : List Bool) : ∀ b : ℚ,
    feedRunFrom b (xs ++ ys)
      = ((feedRunFrom (feedRunFrom b xs).1 ys).1,
         (feedRunFrom b xs).2 ++ (feedRunFrom (feedRunFrom b xs).1 ys).2) := by
  induction xs with
  | nil => intro b; simp [feedRunFrom]
  | cons x xs ih => intro b; simp [feedRunFrom, ih]

lemma feedRunFrom_true_replicate (b : ℚ) (n : ℕ) :
    (feedRunFrom b (true :: List.replicate n false)).2
      = (List.range (n + 1)).map backoffSeq := by
  have hstep : feedIter b true = (backoffSeq 1, backoffSeq 0) := rfl
  have hmap : (List.range n).map (fun i => backoffSeq (1 + i))
      = (List.range n).map (fun i => backoffSeq (i + 1)) := by
    apply List.map_congr_left
    intro i _
    congr 1
    omega
  simp only [feedRunFrom, hstep, feedRunFrom_backoff_false n 1, hmap,
    List.range_succ_eq_map, List.map_cons, List.map_map, Function.comp_def,
    Nat.succ_eq_add_one]

/-- C5: the feed reconnect delays follow the recurrence "start at 1.0s,
multiply by 1.6, clamp at 15.0s": after any successful (re)connect the backoff
resets, so a run of consecutive connect failures sleeps exactly
`backoffSeq 0, backoffSeq 1, ...`; the same holds from process start; and the
first eight values are `1.0, 1.6, 2.56, 4.096, 6.5536, 10.48576, 15.0, 15.0`. -/
theorem feed_backoff_ok :
    (backoffSeq 0 = 1 ∧ ∀ k, backoffSeq (k + 1) = min (backoffSeq k * (16/10)) 15)
    ∧ (∀ n, (feedRun (List.replicate n false)).2 = (List.range n).map backoffSeq)
    ∧ (∀ pre n, (feedRun (pre ++ true :: List.replicate n false)).2
        = (feedRun pre).2 ++ (List.range (n + 1)).map backoffSeq)
    ∧ (List.range 8).map backoffSeq
        = [1, 16/10, 64/25, 512/125, 4096/625, 32768/3125, 15, 15] := by
  refine ⟨⟨rfl, fun k => rfl⟩, ?_, ?_, by decide⟩
  · intro n
    have h := feedRunFrom_backoff_false n 0
    simpa [feedRun] using h
  · intro pre n
    have h := feedRunFrom_append pre (true :: List.replicate n false) 1
    simp only [feedRun, h, feedRunFrom_true_replicate]

/-- C9: each series buffer has a fixed capacity; a push into a full buffer
evicts exactly the single oldest sample; a push into a non-full buffer evicts
nothing; `_push_point` with both metrics present is exactly such a push; and
`chart_series` returns exactly the retained samples at or after the cutoff, in
insertion order, so a cutoff strictly after a sample's timestamp excludes that
sample. -/
theorem timeseries_recorder_ok :
    (∀ (buf : List (ℤ × ℚ × ℚ)) x N, buf.length ≤ N → (pushCap N buf x).length ≤ N)
    ∧ (∀ (buf : List (ℤ × ℚ × ℚ)) x N, 0 < N → buf.length = N →
        pushCap N buf x = buf.tail ++ [x])
    ∧ (∀ (buf : List (ℤ × ℚ × ℚ)) x N, buf.length < N → pushCap N buf x = buf ++ [x])
    ∧ (∀ cap buf t u b, _push_point cap buf t (some u) (some b) = pushCap cap buf (t, u, b))
    ∧ (∀ dq cutoff use_bps, queryPoints dq cutoff use_bps
        = (dq.filter (fun e => decide (cutoff ≤ e.1))).map
            (fun e => (e.1, if use_bps then e.2.2 else e.2.1)))
    ∧ (∀ dq cutoff use_bps, ∀ p ∈ queryPoints dq cutoff use_bps, cutoff ≤ p.1) := by
  refine ⟨?_, ?_, ?_, fun _ _ _ _ _ => rfl, ?_, ?_⟩
  · intro buf x N h
    simp only [pushCap, List.length_drop, List.length_append, List.length_singleton]
    omega
  · intro buf x N hN h
    have h1 : buf.length + 1 - N = 1 := by omega
    simp only [pushCap, List.length_append, List.length_singleton, h, h1]
    rw [List.drop_append_of_le_length (by omega)]
    simp [List.drop_one]
  · intro buf x N h
    have h0 : buf.length + 1 - N = 0 := by omega
    simp [pushCap, h0]
  · intro dq cutoff use_bps
    induction dq with
    | nil => rfl
    | cons e rest ih =>
      by_cases h : e.1 < cutoff
      · have h' : ¬ (cutoff ≤ e.1) := by omega
        simp [queryPoints, List.filter_cons, h, h'] at ih ⊢
        exact ih
      · have h' : cutoff ≤ e.1 := by omega
        simp [queryPoints, List.filter_cons, h, h'] at ih ⊢
        exact ih
  · intro dq cutoff use_bps p hp
    simp only [queryPoints, List.mem_filterMap] at hp
    obtain ⟨e, _, he⟩ := hp
    by_cases h : e.1 < cutoff
    · simp [h] at he
    · rw [if_neg h] at he
      obtain rfl := Option.some.inj he
      simpa using le_of_not_lt h

/-- Witness for C9 at capacity 2: a push into the full buffer drops exactly the
oldest sample, and a cutoff strictly after the oldest retained timestamp
excludes it from the query result. -/
theorem timeseries_recorder_witness :
    pushCap 2 [((1:ℤ), (10:ℚ), (100:ℚ)), (2, 20, 200)] (3, 30, 300)
      = [(2, 20, 200), (3, 30, 300)]
    ∧ ∀ p ∈ queryPoints [((1:ℤ), (10:ℚ), (100:ℚ)), (2, 20, 200), (3, 30, 300)] 2 true,
        (2:ℤ) ≤ p.1 := by
  constructor
  · have h := timeseries_recorder_ok.2.1 [((1:ℤ), (10:ℚ), (100:ℚ)), (2, 20, 200)]
      (3, 30, 300) 2 (by decide) (by decide)
    exact h.trans (by decide)
  · exact timeseries_recorder_ok.2.2.2.2.2
      [((1:ℤ), (10:ℚ), (100:ℚ)), (2, 20, 200), (3, 30, 300)] 2 true

/-- C3: the confirmation executor skips an asset (leaving `Computed` untouched
and issuing no quote calls) unless `anomaly` is set and the cooldown gate is
open; a missing quote on either side leaves both `confirm` and
`last_confirm_s` unchanged (so the asset is retried next tick); a fully
successful confirmation overwrites `ConfirmInfo` wholesale and sets
`last_confirm_s := now`; and whenever `last_confirm_s` moves from a (positive)
old value to `now`, at least `cooldown` seconds have elapsed — confirmation
completes at most once per cooldown period. -/
theorem confirm_executor_ok (cooldown : ℤ) (notional : ℚ) (now now_ms : ℤ)
    (var_buy vwap : Option ℚ) (c : Computed) :
    (c.anomaly = false →
      confirmStep cooldown notional now now_ms var_buy vwap c = (c, false))
    ∧ (∀ t, c.last_confirm_s = some t → t ≠ 0 → now - t < cooldown →
      confirmStep cooldown notional now now_ms var_buy vwap c = (c, false))
    ∧ (var_buy = none ∨ vwap = none →
      (confirmStep cooldown notional now now_ms var_buy vwap c).1 = c)
    ∧ (∀ vb vw, c.anomaly = true →
      (c.last_confirm_s = none ∨ ∃ t, c.last_confirm_s = some t ∧ cooldown ≤ now - t) →
      var_buy = some vb → vwap = some vw →
      confirmStep cooldown notional now now_ms var_buy vwap c =
        ({ c with confirm := some ⟨notional, some vb, some vw,
                                   _calc_bps (vb - vw) vw, some (vb - vw), now_ms⟩,
                  last_confirm_s := some now }, true))
    ∧ (∀ t, c.last_confirm_s = some t → 0 < t → now ≠ t →
      (confirmStep cooldown notional now now_ms var_buy vwap c).1.last_confirm_s = some now →
      cooldown ≤ now - t) := by
  refine ⟨?_, ?_, ?_, ?_, ?_⟩
  · intro h
    simp [confirmStep, h]
  · intro t ht hne hlt
    by_cases ha : c.anomaly = false
    · simp [confirmStep, ha]
    · simp [confirmStep, ha, pyTruthyInt, ht, hne, hlt]
  · intro h
    rcases h with rfl | rfl
    · cases vwap <;> (simp only [confirmStep]; split_ifs <;> rfl)
    · cases var_buy <;> (simp only [confirmStep]; split_ifs <;> rfl)
  · intro vb vw ha hgate hv hw
    subst hv
    subst hw
    have hb : ¬ (c.anomaly = false) := by simp [ha]
    rcases hgate with h0 | ⟨t, ht, hc⟩
    · simp [confirmStep, hb, h0, pyTruthyInt]
    · simp [confirmStep, hb, ht, pyTruthyInt, not_lt.mpr hc]
  · intro t ht htpos hne hlast
    by_cases ha : c.anomaly = false
    · rw [(by simp [confirmStep, ha] :
        confirmStep cooldown notional now now_ms var_buy vwap c = (c, false))] at hlast
      exact absurd (Option.some.inj (ht.symm.trans hlast)).symm hne
    · by_cases hg : now - t < cooldown
      · have htne : t ≠ 0 := by omega
        have hskip : confirmStep cooldown notional now now_ms var_buy vwap c = (c, false) := by
          simp [confirmStep, ha, pyTruthyInt, ht, hg]
          intro h0
          exact absurd h0 htne
        rw [hskip] at hlast
        exact absurd (Option.some.inj (ht.symm.trans hlast)).symm hne
      · omega

/-- Witness for C3: with the default 30s cooldown, an anomalous asset whose
last confirmation was 50s ago and whose two quotes both arrive is confirmed:
`ConfirmInfo` is rebuilt wholesale and `last_confirm_s` is set to now. -/
theorem confirm_executor_witness :
    confirmStep 30 3000 100 100000 (some 101) (some 100)
      { anomaly := true, last_confirm_s := some 50 }
      = ({ anomaly := true,
           last_confirm_s := some 100,
           confirm := some ⟨3000, some 101, some 100, some 100, some 1, 100000⟩ }, true) := by
  have h := (confirm_executor_ok 30 3000 100 100000 (some 101) (some 100)
      { anomaly := true, last_confirm_s := some 50 }).2.2.2.1 101 100 rfl
      (Or.inr ⟨50, rfl, by decide⟩) rfl rfl
  exact h.trans (by decide)

lemma pyFloor_eq (x : ℚ) : pyFloor x = ⌊x⌋ := Rat.floor_def.symm

lemma pyCeil_eq (x : ℚ) : pyCeil x = ⌈x⌉ := by
  have h : pyCeil x = -pyFloor (-x) := rfl
  rw [h, pyFloor_eq, Int.floor_neg, neg_neg]

lemma _quantile_isSome (s : List ℚ) (q : ℚ) (h : ¬ s.length = 0) :
    ∃ v, _quantile s q = some v := by
  by_cases h1 : s.length = 1
  · exact ⟨s.headD 0, by simp only [_quantile, if_neg h, if_pos h1]⟩
  · simp only [_quantile, if_neg h, if_neg h1]
    split_ifs <;> exact ⟨_, rfl⟩

/-- C6: `median_iqr` first discards undefined/NaN entries (its result depends
only on the surviving values); with fewer than 20 survivors it returns
`(None, None)` whatever the values are; otherwise it sorts ascending and
returns exactly `(quantile 0.5, quantile 0.75 - quantile 0.25)` of the sorted
list. -/
theorem median_iqr_ok (vals : List (Option ℚ)) :
    median_iqr vals = median_iqr ((vals.filterMap id).map some)
    ∧ ((vals.filterMap id).length < 20 → median_iqr vals = (none, none))
    ∧ (20 ≤ (vals.filterMap id).length →
        ∃ med q25 q75,
          _quantile ((vals.filterMap id).insertionSort (· ≤ ·)) (1/2) = some med ∧
          _quantile ((vals.filterMap id).insertionSort (· ≤ ·)) (1/4) = some q25 ∧
          _quantile ((vals.filterMap id).insertionSort (· ≤ ·)) (3/4) = some q75 ∧
          median_iqr vals = (some med, some (q75 - q25))) := by
  have hv : ((vals.filterMap id).map some).filterMap id = vals.filterMap id := by
    rw [List.filterMap_map]
    simp [Function.comp_def]
  refine ⟨?_, ?_, ?_⟩
  · simp only [median_iqr, hv]
  · intro h
    simp [median_iqr, if_pos h]
  · intro h
    have hne : ¬ ((vals.filterMap id).insertionSort (· ≤ ·)).length = 0 := by
      rw [List.length_insertionSort]
      omega
    obtain ⟨med, hmed⟩ := _quantile_isSome _ (1/2) hne
    obtain ⟨q25, h25⟩ := _quantile_isSome _ (1/4) hne
    obtain ⟨q75, h75⟩ := _quantile_isSome _ (3/4) hne
    refine ⟨med, q25, q75, hmed, h25, h75, ?_⟩
    simp only [median_iqr, if_neg (not_lt.mpr h), hmed, h25, h75]

/-- Witness for C6: nineteen distinct values yield `(None, None)`; the
twenty-one values `0..20` yield median 10 and IQR `15 - 5 = 10`. -/
theorem median_iqr_witness :
    median_iqr ((List.range 19).map (fun i => some (i : ℚ))) = (none, none)
    ∧ median_iqr ((List.range 21).map (fun i => some (i : ℚ))) = (some 10, some 10) := by
  constructor
  · exact (median_iqr_ok ((List.range 19).map (fun i => some (i : ℚ)))).2.1 (by decide)
  · obtain ⟨med, q25, q75, h1, h2, h3, h4⟩ :=
      (median_iqr_ok ((List.range 21).map (fun i => some (i : ℚ)))).2.2 (by decide)
    obtain rfl : med = 10 := Option.some.inj (h1.symm.trans (by decide))
    obtain rfl : q25 = 5 := Option.some.inj (h2.symm.trans (by decide))
    obtain rfl : q75 = 15 := Option.some.inj (h3.symm.trans (by decide))
    exact h4.trans (by decide)

/-- C7: for a sorted list of `n ≥ 1` values and `q ∈ [0, 1]`, `_quantile`
computes `pos = (n-1)·q`; both `floor pos` and `ceil pos` are valid indices;
when `pos` is integral the element at that index is returned, otherwise the
linear interpolation between the floor- and ceil-index elements weighted by
the fractional part; and a one-element list returns its single value for any
`q` whatsoever. -/
theorem quantile_ok (s : List ℚ) (q : ℚ) (hn : 1 ≤ s.length) (h0 : 0 ≤ q)
    (h1 : q ≤ 1) :
    (pyFloor (((s.length : ℚ) - 1) * q)).toNat < s.length
    ∧ (pyCeil (((s.length : ℚ) - 1) * q)).toNat < s.length
    ∧ ((((s.length : ℚ) - 1) * q) = ((pyFloor (((s.length : ℚ) - 1) * q) : ℤ) : ℚ) →
        _quantile s q = some (s.getD (pyFloor (((s.length : ℚ) - 1) * q)).toNat 0))
    ∧ ((((s.length : ℚ) - 1) * q) ≠ ((pyFloor (((s.length : ℚ) - 1) * q) : ℤ) : ℚ) →
        _quantile s q = some (
          s.getD (pyFloor (((s.length : ℚ) - 1) * q)).toNat 0
            * (1 - (((s.length : ℚ) - 1) * q - ((pyFloor (((s.length : ℚ) - 1) * q) : ℤ) : ℚ)))
          + s.getD (pyCeil (((s.length : ℚ) - 1) * q)).toNat 0
            * (((s.length : ℚ) - 1) * q - ((pyFloor (((s.length : ℚ) - 1) * q) : ℤ) : ℚ))))
    ∧ (s.length = 1 → ∀ q' : ℚ, _quantile s q' = some (s.headD 0)) := by
  set pos : ℚ := ((s.length : ℚ) - 1) * q with hpos
  have hn1 : (1 : ℚ) ≤ (s.length : ℚ) := by exact_mod_cast hn
  have hpos0 : 0 ≤ pos := mul_nonneg (by linarith) h0
  have hposle : pos ≤ (s.length : ℚ) - 1 := mul_le_of_le_one_right (by linarith) h1
  have hfl0 : 0 ≤ ⌊pos⌋ := Int.floor_nonneg.mpr hpos0
  have hflce : ⌊pos⌋ ≤ ⌈pos⌉ := Int.floor_le_ceil pos
  have hceub : ⌈pos⌉ ≤ (s.length : ℤ) - 1 := by
    rw [Int.ceil_le]
    push_cast
    exact hposle
  have hlen : (0 : ℤ) < (s.length : ℤ) := by exact_mod_cast hn
  have hb1 : (pyFloor pos).toNat < s.length := by
    rw [pyFloor_eq]
    omega
  have hb2 : (pyCeil pos).toNat < s.length := by
    rw [pyCeil_eq]
    omega
  refine ⟨hb1, hb2, ?_, ?_, ?_⟩
  · intro hint
    by_cases h1' : s.length = 1
    · have hq0 : pos = 0 := by
        rw [hpos, h1']
        push_cast
        ring
      have hfl : pyFloor pos = 0 := by
        rw [pyFloor_eq, hq0]
        exact Int.floor_zero
      simp only [_quantile, if_neg (by omega : ¬ s.length = 0), if_pos h1', hfl,
        Int.toNat_zero]
      obtain ⟨a, t, rfl⟩ : ∃ a t, s = a :: t := by
        cases s with
        | nil => simp at hn
        | cons a t => exact ⟨a, t, rfl⟩
      rfl
    · have hcast : pos = ((⌊pos⌋ : ℤ) : ℚ) := by
        rw [← pyFloor_eq]
        exact hint
      have hlohi : pyFloor pos = pyCeil pos := by
        rw [pyFloor_eq, pyCeil_eq, hcast, Int.floor_intCast, Int.ceil_intCast]
      simp only [_quantile, if_neg (by omega : ¬ s.length = 0), if_neg h1']
      rw [if_pos hlohi]
  · intro hnint
    have h1' : ¬ s.length = 1 := by
      intro h1''
      apply hnint
      have hq0 : pos = 0 := by
        rw [hpos, h1'']
        push_cast
        ring
      rw [hq0, pyFloor_eq, Int.floor_zero]
      rfl
    have hlohi : ¬ pyFloor pos = pyCeil pos := by
      intro heq
      apply hnint
      have hle1 : (⌊pos⌋ : ℚ) ≤ pos := Int.floor_le pos
      have hle2 : pos ≤ (⌈pos⌉ : ℚ) := Int.le_ceil pos
      rw [pyFloor_eq, pyCeil_eq] at heq
      rw [pyFloor_eq]
      rw [heq] at hle1 ⊢
      linarith
    simp only [_quantile, if_neg (by omega : ¬ s.length = 0), if_neg h1']
    rw [if_neg hlohi]
  · intro h1' q'
    simp only [_quantile, if_neg (by omega : ¬ s.length = 0), if_pos h1']

/-- Witness for C7: quantiles of `[1, 2, 3, 4]` at `q = 0.5` and `q = 0.25`
are `2.5` and `1.75` (fractional positions, interpolated), and `[5]` yields
`5` at `q = 0.7`. -/
theorem quantile_witness :
    _quantile [1, 2, 3, 4] (1/2) = some (5/2)
    ∧ _quantile [1, 2, 3, 4] (1/4) = some (7/4)
    ∧ _quantile [5] (7/10) = some 5 := by
  refine ⟨?_, ?_, ?_⟩
  · have h := (quantile_ok [1, 2, 3, 4] (1/2) (by decide) (by decide)
      (by decide)).2.2.2.1 (by decide)
    exact h.trans (by decide)
  · have h := (quantile_ok [1, 2, 3, 4] (1/4) (by decide) (by decide)
      (by decide)).2.2.2.1 (by decide)
    exact h.trans (by decide)
  · have h := (quantile_ok [5] (1/2) (by decide) (by decide)
      (by decide)).2.2.2.2 rfl (7/10)
    exact h.trans (by decide)

/-- C4: per-record normalisation and filtering of `/ingest/var_batch`: an empty
(normalised) base or a missing bid/ask drops the record with no state change;
a record whose post-swap mid deviates from the primary-venue reference by more
than 5% is dropped while still marking the base active; an accepted record is
upserted under `(uppercased-trimmed base, round(notional))` with bid/ask
swapped into ascending order, leaving every other key untouched. -/
theorem ingest_var_batch_ok :
    (∀ lp now_ms st q, pyStrip (pyUpper q.base) = "" → ingestOne lp now_ms st q = st)
    ∧ (∀ lp now_ms st q, q.bid = none ∨ q.ask = none → ingestOne lp now_ms st q = st)
    ∧ (∀ lp now_ms st q b a r, q.bid = some b → q.ask = some a →
        pyStrip (pyUpper q.base) ≠ "" →
        pyOr (pyOr (lp (pyStrip (pyUpper q.base))).mark
          (lp (pyStrip (pyUpper q.base))).bid) (lp (pyStrip (pyUpper q.base))).ask = some r →
        r ≠ 0 → 5/100 < |(a + b) / 2 - r| / r →
        ((ingestOne lp now_ms st q).varBatch = st.varBatch
         ∧ (ingestOne lp now_ms st q).stored = st.stored
         ∧ (ingestOne lp now_ms st q).activeBases (pyStrip (pyUpper q.base)) = true
         ∧ ∀ b', b' ≠ pyStrip (pyUpper q.base) →
             (ingestOne lp now_ms st q).activeBases b' = st.activeBases b'))
    ∧ (∀ lp now_ms st q b a, q.bid = some b → q.ask = some a →
        pyStrip (pyUpper q.base) ≠ "" →
        (∀ r, pyOr (pyOr (lp (pyStrip (pyUpper q.base))).mark
            (lp (pyStrip (pyUpper q.base))).bid) (lp (pyStrip (pyUpper q.base))).ask = some r →
          r ≠ 0 → |(a + b) / 2 - r| / r ≤ 5/100) →
        ((ingestOne lp now_ms st q).varBatch
            (pyStrip (pyUpper q.base),
             _notional_key (some ((pyOr q.notional_usd q.notional).getD 0)))
            = some ⟨now_ms, pyStrip (pyUpper q.base),
                    _notional_key (some ((pyOr q.notional_usd q.notional).getD 0)),
                    min b a, max b a, q.mid, q.qty_used⟩
         ∧ (∀ k, k ≠ (pyStrip (pyUpper q.base),
              _notional_key (some ((pyOr q.notional_usd q.notional).getD 0))) →
             (ingestOne lp now_ms st q).varBatch k = st.varBatch k)
         ∧ (ingestOne lp now_ms st q).activeBases (pyStrip (pyUpper q.base)) = true
         ∧ (ingestOne lp now_ms st q).stored = st.stored + 1)) := by
  refine ⟨?_, ?_, ?_, ?_⟩
  · intro lp now_ms st q hb
    simp [ingestOne, hb]
  · intro lp now_ms st q h
    rcases h with hb | ha
    · rcases hask : q.ask with _ | a <;> simp [ingestOne, hb, hask]
    · rcases hbid : q.bid with _ | b <;> simp [ingestOne, ha, hbid]
  · intro lp now_ms st q b a r hbid hask hbase href hr0 hdev
    by_cases hswap : a < b
    · have hdev' : 5/100 < |(b + a) / 2 - r| / r := by
        rw [add_comm b a]
        exact hdev
      refine ⟨?_, ?_, ?_, ?_⟩
      · simp [ingestOne, hbid, hask, hbase, hswap, href, hr0, hdev']
      · simp [ingestOne, hbid, hask, hbase, hswap, href, hr0, hdev']
      · simp [ingestOne, hbid, hask, hbase, hswap, href, hr0, hdev']
      · intro b' hb'
        simp [ingestOne, hbid, hask, hbase, hswap, href, hr0, hdev', hb']
    · refine ⟨?_, ?_, ?_, ?_⟩
      · simp [ingestOne, hbid, hask, hbase, hswap, href, hr0, hdev]
      · simp [ingestOne, hbid, hask, hbase, hswap, href, hr0, hdev]
      · simp [ingestOne, hbid, hask, hbase, hswap, href, hr0, hdev]
      · intro b' hb'
        simp [ingestOne, hbid, hask, hbase, hswap, href, hr0, hdev, hb']
  · intro lp now_ms st q b a hbid hask hbase hfil
    by_cases hswap : a < b
    · have hmin : min b a = a := min_eq_right (le_of_lt hswap)
      have hmax : max b a = b := max_eq_left (le_of_lt hswap)
      rcases href : pyOr (pyOr (lp (pyStrip (pyUpper q.base))).mark
          (lp (pyStrip (pyUpper q.base))).bid) (lp (pyStrip (pyUpper q.base))).ask with _ | r
      · refine ⟨?_, ?_, ?_, ?_⟩
        · simp [ingestOne, hbid, hask, hbase, hswap, href, hmin, hmax]
        · intro k hk
          simp [ingestOne, hbid, hask, hbase, hswap, href, hk]
        · simp [ingestOne, hbid, hask, hbase, hswap, href]
        · simp [ingestOne, hbid, hask, hbase, hswap, href]
      · by_cases hr0 : r = 0
        · refine ⟨?_, ?_, ?_, ?_⟩
          · simp [ingestOne, hbid, hask, hbase, hswap, href, hr0, hmin, hmax]
          · intro k hk
            simp [ingestOne, hbid, hask, hbase, hswap, href, hr0, hk]
          · simp [ingestOne, hbid, hask, hbase, hswap, href, hr0]
          · simp [ingestOne, hbid, hask, hbase, hswap, href, hr0]
        · have hnd : ¬ (5/100 < |(b + a) / 2 - r| / r) := by
            rw [add_comm b a]
            exact not_lt.mpr (hfil r href hr0)
          refine ⟨?_, ?_, ?_, ?_⟩
          · simp [ingestOne, hbid, hask, hbase, hswap, href, hr0, hnd, hmin, hmax]
          · intro k hk
            simp [ingestOne, hbid, hask, hbase, hswap, href, hr0, hnd, hk]
          · simp [ingestOne, hbid, hask, hbase, hswap, href, hr0, hnd]
          · simp [ingestOne, hbid, hask, hbase, hswap, href, hr0, hnd]
    · have hba : b ≤ a := not_lt.mp hswap
      have hmin : min b a = b := min_eq_left hba
      have hmax : max b a = a := max_eq_right hba
      rcases href : pyOr (pyOr (lp (pyStrip (pyUpper q.base))).mark
          (lp (pyStrip (pyUpper q.base))).bid) (lp (pyStrip (pyUpper q.base))).ask with _ | r
      · refine ⟨?_, ?_, ?_, ?_⟩
        · simp [ingestOne, hbid, hask, hbase, hswap, href, hmin, hmax]
        · intro k hk
          simp [ingestOne, hbid, hask, hbase, hswap, href, hk]
        · simp [ingestOne, hbid, hask, hbase, hswap, href]
        · simp [ingestOne, hbid, hask, hbase, hswap, href]
      · by_cases hr0 : r = 0
        · refine ⟨?_, ?_, ?_, ?_⟩
          · simp [ingestOne, hbid, hask, hbase, hswap, href, hr0, hmin, hmax]
          · intro k hk
            simp [ingestOne, hbid, hask, hbase, hswap, href, hr0, hk]
          · simp [ingestOne, hbid, hask, hbase, hswap, href, hr0]
          · simp [ingestOne, hbid, hask, hbase, hswap, href, hr0]
        · have hnd : ¬ (5/100 < |(a + b) / 2 - r| / r) :=
            not_lt.mpr (hfil r href hr0)
          refine ⟨?_, ?_, ?_, ?_⟩
          · simp [ingestOne, hbid, hask, hbase, hswap, href, hr0, hnd, hmin, hmax]
          · intro k hk
            simp [ingestOne, hbid, hask, hbase, hswap, href, hr0, hnd, hk]
          · simp [ingestOne, hbid, hask, hbase, hswap, href, hr0, hnd]
          · simp [ingestOne, hbid, hask, hbase, hswap, href, hr0, hnd]

/-- Witness for C4: the record `{base: "eth", notional_usd: 1499.6, bid: 101,
ask: 100}` (with no primary-venue reference price known) is stored under key
`("ETH", 1500)` with bid and ask swapped to `bid = 100, ask = 101`, and the
base is marked active. -/
theorem ingest_var_batch_witness :
    (ingest_var_batch (fun _ => ({} : LighterPrice)) 0
        [{ base := ("eth"), notional_usd := some (14996/10),
           bid := some 101, ask := some 100 }] IngestState.init).varBatch
        (("ETH"), 1500)
      = some ⟨0, ("ETH"), 1500, 100, 101, none, none⟩
    ∧ (ingest_var_batch (fun _ => ({} : LighterPrice)) 0
        [{ base := ("eth"), notional_usd := some (14996/10),
           bid := some 101, ask := some 100 }] IngestState.init).activeBases
        (("ETH")) = true := by
  obtain ⟨h1, _, h3, _⟩ := (ingest_var_batch_ok).2.2.2
    (fun _ => ({} : LighterPrice)) 0 IngestState.init
    ({ base := ("eth"), notional_usd := some (14996/10),
       bid := some 101, ask := some 100 } : RawQuote)
    101 100 rfl rfl (by decide)
    (fun r hr => Option.noConfusion hr)
  rw [show (pyStrip (pyUpper (("eth") : String)),
        _notional_key (some ((pyOr (some ((14996:ℚ)/10)) none).getD 0)))
      = ((("ETH") : String), (1500 : ℤ)) from by decide] at h1
  rw [show pyStrip (pyUpper (("eth") : String)) = (("ETH") : String) from by decide] at h3
  exact ⟨h1.trans (by decide), h3⟩

/-- Counterexample for C8: a payload carrying only `index_price` (no explicit
bid/ask fields and no mark price) yields `(None, None)` from
`_pick_best_bid_ask` — the code does not fall back to the index price, so the
claimed "falls back to the mark/index price" fails for the index price. -/
theorem pick_best_bid_ask_counterexample :
    (∀ k ∈ bid_keys ++ ask_keys, dIdx k = none)
    ∧ dIdx ("index_price") = some (.num 100)
    ∧ _pick_best_bid_ask dIdx = (none, none) := by
  refine ⟨by decide, rfl, by decide⟩

lemma pickFirst_eq_pickSpec (d : String → Option PyVal) :
    ∀ keys, pickFirst d keys = pickSpec d keys := by
  intro keys
  induction keys with
  | nil => rfl
  | cons k ks ih =>
    rcases hk : d k with _ | v
    · have h1 : pickFirst d (k :: ks) = pickFirst d ks := by
        simp [pickFirst, hk]
      have h2 : pickSpec d (k :: ks) = pickSpec d ks := by
        simp [pickSpec, List.find?, hk]
      rw [h1, h2]
      exact ih
    · simp [pickFirst, pickSpec, List.find?, hk]

/-- C8 (amended): bid and ask are resolved by trying the ordered candidate
field lists `best_bid, bid, bid_price, bestBid, bestBidPrice` (and the ask
analogues), first present key wins; when both are resolved no fallback is
applied; and when neither side resolves from explicit fields, both sides fall
back to the mark price (`mark_price` or `markPrice`; the index price is not
consulted), producing a single synthetic value for the book. -/
theorem pick_best_bid_ask_ok :
    bid_keys = [("best_bid"), ("bid"), ("bid_price"), ("bestBid"), ("bestBidPrice")]
    ∧ ask_keys = [("best_ask"), ("ask"), ("ask_price"), ("bestAsk"), ("bestAskPrice")]
    ∧ (∀ d keys, pickFirst d keys = pickSpec d keys)
    ∧ (∀ d b a, pickFirst d bid_keys = some b → pickFirst d ask_keys = some a →
        _pick_best_bid_ask d = (some b, some a))
    ∧ (∀ d, pickFirst d bid_keys = none → pickFirst d ask_keys = none →
        _pick_best_bid_ask d
          = ((pyOrVal (d ("mark_price")) (d ("markPrice"))).bind _to_float,
             (pyOrVal (d ("mark_price")) (d ("markPrice"))).bind _to_float)) := by
  refine ⟨rfl, rfl, pickFirst_eq_pickSpec, ?_, ?_⟩
  · intro d b a hb ha
    simp [_pick_best_bid_ask, hb, ha]
  · intro d hb ha
    simp [_pick_best_bid_ask, hb, ha]

/-- Witness for C8: with only a mark price of 50 present, both sides degrade
to the synthetic value 50; and an explicit `best_bid` wins over the mark. -/
theorem pick_best_bid_ask_witness :
    _pick_best_bid_ask dMark = (some 50, some 50)
    ∧ pickFirst dIdx bid_keys = pickSpec dIdx bid_keys := by
  constructor
  · have h := pick_best_bid_ask_ok.2.2.2.2 dMark (by decide) (by decide)
    exact h.trans (by decide)
  · exact pick_best_bid_ask_ok.2.2.1 dIdx bid_keys

/-- Counterexample for C2: on an engine tick at `now = 5000` over a market
whose best ask is unknown, the history sample from `t = 0` — aged 5000s,
strictly older than the 1800s window — survives the tick untouched: the
history is not trimmed on every engine tick, only on ticks where a spread
sample is appended. -/
theorem trim_hist_counterexample :
    (engineTick 6 1800 8 5000 mC2).spread_bps_hist = [(0, 1)]
    ∧ (1800 : ℤ) < 5000 - 0
    ∧ mC2.book.best_ask = none := by
  refine ⟨by decide, by decide, rfl⟩

/-- C2 (amended): the spread history is trimmed on every engine tick on which
a spread sample is appended (a computable, positive-ask spread): the tick
replaces the history by the trim of the appended history.  The trim itself
evicts oldest-first (the result is a suffix of the input), evicts strictly by
age — with nondecreasing timestamps it keeps exactly the in-window entries,
irrespective of count (the deque capacity 7200 being unreachable at the
default window) — and afterwards every retained sample is within the window. -/
theorem trim_hist_ok :
    (∀ now w (hist : List (ℤ × ℚ)), (_trim_hist now w hist).IsSuffix hist)
    ∧ (∀ now w (hist : List (ℤ × ℚ)), hist.Pairwise (fun x y => x.1 ≤ y.1) →
        _trim_hist now w hist = hist.filter (fun e => decide (now - e.1 ≤ w)))
    ∧ (∀ now w (hist : List (ℤ × ℚ)), hist.Pairwise (fun x y => x.1 ≤ y.1) →
        ∀ e ∈ _trim_hist now w hist, now - e.1 ≤ w)
    ∧ (∀ p w d now (m : Market) a vb, m.book.best_ask = some a → 0 < a →
        m.var.buy_1500 = some vb → vb ≠ 0 → m.spread_bps_hist.length < 7200 →
        (engineTick p w d now m).spread_bps_hist
          = _trim_hist now w (m.spread_bps_hist ++ [(now, (vb - a) / a * 10000)])) := by
  have hfilter : ∀ now w : ℤ, ∀ hist : List (ℤ × ℚ),
      hist.Pairwise (fun x y => x.1 ≤ y.1) →
      _trim_hist now w hist = hist.filter (fun e => decide (now - e.1 ≤ w)) := by
    intro now w hist hp
    induction hist with
    | nil => rfl
    | cons e t ih =>
      have hhead : ∀ y ∈ t, e.1 ≤ y.1 := (List.pairwise_cons.mp hp).1
      have ht : t.Pairwise (fun x y => x.1 ≤ y.1) := (List.pairwise_cons.mp hp).2
      by_cases hc : w < now - e.1
      · have h1 : _trim_hist now w (e :: t) = _trim_hist now w t := by
          simp [_trim_hist, List.dropWhile, hc]
        have h2 : ¬ (now - e.1 ≤ w) := by omega
        rw [h1, ih ht, List.filter_cons]
        simp [h2]
      · have h1 : _trim_hist now w (e :: t) = e :: t := by
          simp [_trim_hist, List.dropWhile, hc]
        have h2 : now - e.1 ≤ w := by omega
        have h3 : List.filter (fun e => decide (now - e.1 ≤ w)) t = t := by
          rw [List.filter_eq_self]
          intro y hy
          have := hhead y hy
          simp only [decide_eq_true_eq]
          omega
        rw [h1, List.filter_cons, h3]
        simp [h2]
  refine ⟨?_, hfilter, ?_, ?_⟩
  · intro now w hist
    exact ⟨hist.takeWhile (fun e => decide (w < now - e.1)),
      List.takeWhile_append_dropWhile _ _⟩
  · intro now w hist hp e he
    rw [hfilter now w hist hp] at he
    have := (List.mem_filter.mp he).2
    simpa using this
  · intro p w d now m a vb hask h0a hvb hvb0 hlen
    have ha' : a ≠ 0 := by
      intro h
      rw [h] at h0a
      exact lt_irrefl 0 h0a
    have hnle : ¬ (a ≤ 0) := not_le.mpr h0a
    have hcalc : _calc_bps (vb - a) a = some ((vb - a) / a * 10000) := by
      simp [_calc_bps, hnle]
    have hcond : (pyTruthy (some a) && pyTruthy (some vb)) = true := by
      simp [pyTruthy, ha', hvb0]
    have h1 : engineTick p w d now m
        = engineBaselineStep p w d now ((vb - a) / a * 10000)
            (withSpread m (vb - a) (some ((vb - a) / a * 10000))) := by
      simp only [engineTick, hask, hvb, Option.getD_some, hcalc, hcond,
        eq_self_iff_true, if_true]
    rw [h1, engineBaselineStep_hist]
    exact congrArg (_trim_hist now w) (pushCap_of_lt _ _ _ hlen)

/-- Witness for C2: with the default 1800s window, a good tick at `now = 2000`
appends the fresh sample and evicts exactly the sample from `t = 100`
(aged 1900s), keeping the in-window samples. -/
theorem trim_hist_witness :
    (engineTick 6 1800 8 2000
        { market_id := 0, symbol := ("X"), base := ("X"),
          book := { best_ask := some 100 },
          var := { buy_1500 := some 101 },
          spread_bps_hist := [(100, 1), (500, 2)] }).spread_bps_hist
      = [(500, 2), (2000, 100)]
    ∧ _trim_hist 2000 1800 [((100:ℤ), (1:ℚ)), (500, 2), (2000, 100)]
      = [((500:ℤ), (2:ℚ)), (2000, 100)] := by
  constructor
  · have h := trim_hist_ok.2.2.2 6 1800 8 2000
      { market_id := 0, symbol := ("X"), base := ("X"),
        book := { best_ask := some 100 },
        var := { buy_1500 := some 101 },
        spread_bps_hist := [(100, 1), (500, 2)] }
      100 101 rfl (by decide) rfl (by decide) (by decide)
    exact h.trans (by decide)
  · have h := trim_hist_ok.2.1 2000 1800 [((100:ℤ), (1:ℚ)), (500, 2), (2000, 100)]
      (by decide)
    exact h.trans (by decide)

/-- Counterexample for C10: on a tick where the baseline is undefined (the
history holds a single sample, far fewer than 20) the engine does not leave
the previously computed fields unchanged — `spread_usd` is overwritten from
999 to the fresh value 1, and the baseline fields are written to `None`. -/
theorem engine_frame_counterexample :
    (engineTick 6 1800 8 1000 mC10).computed.spread_usd = some 1
    ∧ mC10.computed.spread_usd = some 999
    ∧ (engineTick 6 1800 8 1000 mC10).spread_bps_hist.length < 20
    ∧ (engineTick 6 1800 8 1000 mC10).computed.baseline_median_bps = none := by
  refine ⟨by decide, rfl, by decide, by decide⟩

/-- C10 (amended): on a tick where the best ask or the secondary buy quote is
missing or zero, the engine leaves the whole market record — all computed
fields and the history — exactly as it was, so an anomalyActive asset stays
anomalyActive indefinitely while its input data is missing.  On a tick where
the spread is computable but the baseline is undefined (fewer than 20 samples
after append-and-trim), `spread_usd`/`spread_bps` are overwritten with the
fresh values and the baseline fields are set to `None`, while `deviation_bps`,
`anomaly`, `anomaly_started_s`, `last_confirm_s` and `confirm` keep their
previous values. -/
theorem engine_frame_ok :
    (∀ p w (d : ℚ) now (m : Market),
      pyTruthy m.book.best_ask = false ∨ pyTruthy m.var.buy_1500 = false →
      engineTick p w d now m = m)
    ∧ (∀ p w (d : ℚ) now (m : Market) a vb, m.book.best_ask = some a → 0 < a →
        m.var.buy_1500 = some vb → vb ≠ 0 → m.spread_bps_hist.length < 7200 →
        (_trim_hist now w (m.spread_bps_hist ++ [(now, (vb - a) / a * 10000)])).length < 20 →
        engineTick p w d now m
          = withBaselineCleared (withSpread m (vb - a) (some ((vb - a) / a * 10000)))
              (_trim_hist now w (m.spread_bps_hist ++ [(now, (vb - a) / a * 10000)]))) := by
  constructor
  · intro p w d now m h
    rcases h with h | h <;> simp [engineTick, h]
  · intro p w d now m a vb hask h0a hvb hvb0 hlen hshort
    have ha' : a ≠ 0 := by
      intro h
      rw [h] at h0a
      exact lt_irrefl 0 h0a
    have hnle : ¬ (a ≤ 0) := not_le.mpr h0a
    have hcalc : _calc_bps (vb - a) a = some ((vb - a) / a * 10000) := by
      simp [_calc_bps, hnle]
    have hcond : (pyTruthy (some a) && pyTruthy (some vb)) = true := by
      simp [pyTruthy, ha', hvb0]
    have h1 : engineTick p w d now m
        = engineBaselineStep p w d now ((vb - a) / a * 10000)
            (withSpread m (vb - a) (some ((vb - a) / a * 10000))) := by
      simp only [engineTick, hask, hvb, Option.getD_some, hcalc, hcond,
        eq_self_iff_true, if_true]
    have hpush : pushCap 7200
        (withSpread m (vb - a) (some ((vb - a) / a * 10000))).spread_bps_hist
        (now, (vb - a) / a * 10000)
        = m.spread_bps_hist ++ [(now, (vb - a) / a * 10000)] :=
      pushCap_of_lt _ _ _ hlen
    have hmi : median_iqr ((_trim_hist now w
        (m.spread_bps_hist ++ [(now, (vb - a) / a * 10000)])).map (fun e => some e.2))
        = (none, none) := by
      apply median_iqr_short
      rw [length_filterMap_some_snd]
      exact hshort
    rw [h1]
    simp only [engineBaselineStep, hpush, hmi]
    rfl

/-- Witness for C10: a market with an active anomaly and no best ask is left
fully unchanged by the tick (the anomaly persists); and on the market `mC10`
(baseline undefined) the tick overwrites exactly the spread and baseline
fields, leaving the anomaly state intact. -/
theorem engine_frame_witness :
    engineTick 6 1800 8 1000 { mC10 with book := {} } = { mC10 with book := {} }
    ∧ ({ mC10 with book := {} } : Market).computed.anomaly = true
    ∧ engineTick 6 1800 8 1000 mC10
        = withBaselineCleared (withSpread mC10 1 (some 100)) [(1000, 100)] := by
  refine ⟨?_, rfl, ?_⟩
  · exact engine_frame_ok.1 6 1800 8 1000 { mC10 with book := {} } (Or.inl rfl)
  · have h := engine_frame_ok.2 6 1800 8 1000 mC10 100 101 rfl (by decide) rfl
      (by decide) (by decide) (by decide)
    exact h.trans (by decide)

lemma runAnomaly_append (p : ℤ) (xs : List (ℤ × Bool)) (x : ℤ × Bool) :
    runAnomaly p (xs ++ [x]) = anomalyUpdate p x.1 x.2 (runAnomaly p xs) := by
  simp [runAnomaly, List.foldl_append]

lemma condStreak_append_false (xs : List (ℤ × Bool)) (t : ℤ) :
    condStreak (xs ++ [(t, false)]) = [] := by
  simp [condStreak, List.takeWhile_cons]

lemma condStreak_append_true (xs : List (ℤ × Bool)) (t : ℤ) :
    condStreak (xs ++ [(t, true)]) = condStreak xs ++ [(t, true)] := by
  simp [condStreak, List.takeWhile_cons]

/-- C1: over any sequence of engine ticks on which the deviation condition is
evaluated (given as `(timestampSec, condition)` pairs with strictly increasing
timestamps), the debounce state machine started from the clean state satisfies
exactly the claimed asymmetric behaviour: `anomaly_started_s` always holds the
timestamp of the first tick of the current unbroken condition-true run (and is
`None` when the last tick's condition was false, cleared on that same tick);
and `anomaly` is true exactly when such a run exists and has persisted for at
least `persistSec` seconds — in particular a run of `persistSec - 1` seconds
never sets it, a tick at `elapsed ≥ persistSec` sets it, and any
condition-false tick resets it immediately, with no persistence requirement. -/
theorem anomaly_debounce_ok (p : ℤ) (ticks : List (ℤ × Bool))
    (hs : ticks.Pairwise (fun x y => x.1 < y.1)) :
    runAnomaly p ticks
      = ((match streakStart ticks, ticks.getLast? with
          | some t0, some tc => decide (p ≤ tc.1 - t0)
          | _, _ => false),
         streakStart ticks) := by
  induction ticks using List.reverseRecOn with
  | nil => rfl
  | append_singleton xs x ih =>
    obtain ⟨t, c⟩ := x
    have hxs : xs.Pairwise (fun a b => a.1 < b.1) := (List.pairwise_append.mp hs).1
    have hlt : ∀ e ∈ xs, e.1 < t := by
      intro e he
      exact (List.pairwise_append.mp hs).2.2 e he (t, c) (by simp)
    rw [runAnomaly_append, ih hxs]
    cases c with
    | false =>
      have hs2 : streakStart (xs ++ [(t, false)]) = none := by
        simp [streakStart, condStreak_append_false]
      simp [anomalyUpdate, hs2]
    | true =>
      rcases hcs : condStreak xs with _ | ⟨e0, rest⟩
      · have hs1 : streakStart xs = none := by
          simp [streakStart, hcs]
        have hs2 : streakStart (xs ++ [(t, true)]) = some t := by
          simp [streakStart, condStreak_append_true, hcs]
        rw [hs1]
        simp only [anomalyUpdate, hs2, List.getLast?_concat]
        by_cases hp : p ≤ t - t <;> simp [hp]
      · have hs1 : streakStart xs = some e0.1 := by
          simp [streakStart, hcs]
        have hxs_ne : xs ≠ [] := by
          intro h
          rw [h] at hcs
          simp [condStreak] at hcs
        have hlast : xs.getLast? = some (xs.getLast hxs_ne) :=
          List.getLast?_eq_getLast xs hxs_ne
        have htl : (xs.getLast hxs_ne).1 < t := hlt _ (List.getLast_mem hxs_ne)
        have hs2 : streakStart (xs ++ [(t, true)]) = some e0.1 := by
          simp [streakStart, condStreak_append_true, hcs]
        rw [hs1, hlast]
        simp only [anomalyUpdate, hs2, List.getLast?_concat, Option.getD_some]
        by_cases hp : p ≤ t - e0.1
        · simp [hp]
        · have hnp : ¬ (p ≤ (xs.getLast hxs_ne).1 - e0.1) := by omega
          simp [hp, hnp]

/-- Witness for C1 with the default `persistSec = 6`: a condition-true run at
seconds 0..5 (held for exactly 5 = persistSec - 1 seconds) leaves the anomaly
off with `anomaly_started_s = 0`; a condition-false tick right after clears
both on that same tick; and extending the run to second 6 (elapsed 6 ≥ 6)
switches the anomaly on. -/
theorem anomaly_debounce_witness :
    runAnomaly 6 [(0, true), (1, true), (2, true), (3, true), (4, true), (5, true)]
      = (false, some 0)
    ∧ runAnomaly 6
        [(0, true), (1, true), (2, true), (3, true), (4, true), (5, true), (6, false)]
      = (false, none)
    ∧ runAnomaly 6
        [(0, true), (1, true), (2, true), (3, true), (4, true), (5, true), (6, true)]
      = (true, some 0) := by
  refine ⟨?_, ?_, ?_⟩
  · exact (anomaly_debounce_ok 6
      [(0, true), (1, true), (2, true), (3, true), (4, true), (5, true)]
      (by decide)).trans (by decide)
  · exact (anomaly_debounce_ok 6
      [(0, true), (1, true), (2, true), (3, true), (4, true), (5, true), (6, false)]
      (by decide)).trans (by decide)
  · exact (anomaly_debounce_ok 6
      [(0, true), (1, true), (2, true), (3, true), (4, true), (5, true), (6, true)]
      (by decide)).trans (by decide)

end SpreadWatch
